import Mathlib

/-!
Verification of the BGP connection core (bgpd/bgp_connection.c).

The C structures and functions are shallowly embedded.  Pointers into
buffers become natural-number addresses, byte buffers become lists of
naturals, the socket becomes an oracle listing the results of the
successive system calls, and the few library functions that are declared
outside this file (stream handling, message-header access, the connection
reset helper) are modelled from the specification, as marked in their doc
comments.  Host strings are modelled as lists of naturals.
-/

set_option maxRecDepth 8000

def BGP_MAX_MSG_L : Nat := 4096

def BGP_MH_HEAD_L : Nat := 19

def EINTR : Nat := 4

def EAGAIN : Nat := 11

def EWOULDBLOCK : Nat := 11

/-- Byte accessor for list-modelled memory: the byte at index `n`, zero
when out of range. -/
def byteAt (l : List Nat) (n : Nat) : Nat := (l.drop n).headD 0

/-- The write buffer `struct bgp_wbuffer`: `base`, `limit`, `p_in`, `p_out`
are addresses (all zero while the buffer is unallocated, mirroring NULL
pointers); `data` models the bytes stored at `[base, limit)`; `alloc`
mirrors `base != NULL`. -/
structure WBuffer where
  alloc : Bool
  base : Nat
  limit : Nat
  p_in : Nat
  p_out : Nat
  full : Bool
  data : List Nat
deriving DecidableEq

/-- The qpselect file of a connection: fd, registration with the selector
and the read/write readiness modes. -/
structure QFile where
  fd : Option Nat
  registered : Bool
  read_enabled : Bool
  write_enabled : Bool
deriving DecidableEq

/-- The fields of `struct bgp_connection` touched by the operations under
verification.  Timers are modelled by their armed/initialised flags,
streams by their byte contents, the pending queue by a list of message
identifiers. -/
structure Conn where
  state : Nat
  sessionId : Option Nat
  stopped : Nat
  host : List Nat
  log : Nat
  open_recv : Option Nat
  notification : Option Nat
  notification_pending : Bool
  su_local : Option Nat
  su_remote : Option Nat
  hold_timer_init : Bool
  keepalive_timer_init : Bool
  hold_timer_armed : Bool
  keepalive_timer_armed : Bool
  hold_timer_interval : Nat
  keepalive_timer_interval : Nat
  ibuf : List Nat
  obuf : List Nat
  read_pending : Nat
  read_header : Bool
  wbuff : WBuffer
  pending_queue : List Nat
  qf : QFile
deriving DecidableEq

/-- `bgp_write_buffer_full`: full if not enough room for a maximum size
BGP message (source lines 274-278). -/
def bgp_write_buffer_full (wb : WBuffer) : Bool :=
  decide (wb.limit - wb.p_in < BGP_MAX_MSG_L)

/-- `bgp_write_buffer_empty`: in and out pointers equal (source lines
283-287). -/
def bgp_write_buffer_empty (wb : WBuffer) : Bool :=
  decide (wb.p_out = wb.p_in)

/-- `bgp_write_buffer_init_new` (source lines 295-307): allocate, set
`limit = base + size`, `p_in = p_out = base`, recompute `full`. -/
def bgp_write_buffer_init_new (size : Nat) : WBuffer :=
  let wb : WBuffer :=
    { alloc := true, base := 0, limit := size, p_in := 0, p_out := 0,
      full := false, data := List.replicate size 0 }
  { wb with full := bgp_write_buffer_full wb }

/-- Modelled from the spec: `bgp_msg_get_mlen` reads the 2-byte
network-order message length at offset 16 of the message header starting
at address `p` (the accessor itself is declared outside this file). -/
def bgp_msg_get_mlen (wb : WBuffer) (p : Nat) : Nat :=
  256 * byteAt wb.data (p + 16 - wb.base) + byteAt wb.data (p + 17 - wb.base)

/-- The do-while walk inside `bgp_connection_part_close` (source lines
581-585): advance `p` by each message length until `p + mlen > p_out`.
The extra fuel argument makes the recursion structural; the callers pass
more fuel than there are messages in the buffer. -/
def partCloseWalk (wb : WBuffer) (pout : Nat) : Nat → Nat → Nat → Nat × Nat
  | 0, p, mlen => (p, mlen)
  | fuel + 1, p, mlen =>
    let p2 := p + mlen
    let mlen2 := bgp_msg_get_mlen wb p2
    if p2 + mlen2 ≤ pout then partCloseWalk wb pout fuel p2 mlen2
    else (p2, mlen2)

/-- The write-buffer purge inside `bgp_connection_part_close` (source
lines 577-599): if the buffer is non-empty, walk to the message holding
`p_out`; when `p_out` sits at its start discard everything, otherwise
copy that message to `base`; finally recompute `full`. -/
def partCloseWbuff (wb : WBuffer) : WBuffer :=
  let wb2 :=
    if wb.p_in ≠ wb.p_out then
      let pm := partCloseWalk wb wb.p_out (wb.data.length + 1) wb.base 0
      if pm.1 = wb.p_out then
        { wb with p_out := wb.base + (wb.p_out - pm.1), p_in := wb.base + 0 }
      else
        { wb with
            data := (wb.data.drop (pm.1 - wb.base)).take pm.2 ++
                      wb.data.drop pm.2,
            p_out := wb.base + (wb.p_out - pm.1),
            p_in := wb.base + pm.2 }
    else
      { wb with p_in := wb.base, p_out := wb.base }
  { wb2 with full := bgp_write_buffer_full wb2 }

/-- `bgp_connection_part_close` (source lines 550-603): shut down the
read side, reset the input buffering and obuf, purge the write buffer
down to the message in flight, recompute `full` and empty the pending
queue. -/
def bgp_connection_part_close (c : Conn) : Conn :=
  let qf2 :=
    match c.qf.fd with
    | some _ => { c.qf with read_enabled := false }
    | none => c.qf
  { c with
      qf := qf2,
      ibuf := [],
      read_pending := 0,
      read_header := false,
      obuf := [],
      notification_pending := false,
      wbuff := partCloseWbuff c.wbuff,
      pending_queue := [] }

/-- `bgp_connection_close` (source lines 497-530): unregister the qfile,
shut the fd, forget addresses, unset timers, reset all buffering and
empty the pending queue; everything else is untouched. -/
def bgp_connection_close (c : Conn) : Conn :=
  { c with
      qf := { fd := none, registered := false,
              read_enabled := false, write_enabled := false },
      su_local := none,
      su_remote := none,
      hold_timer_armed := false,
      keepalive_timer_armed := false,
      ibuf := [],
      obuf := [],
      read_pending := 0,
      read_header := false,
      notification_pending := false,
      wbuff := { c.wbuff with
                   p_in := c.wbuff.base, p_out := c.wbuff.base,
                   full := false },
      pending_queue := [] }

/-- Modelled from the spec: `stream_transfer(p, s, limit)` moves the whole
contents of stream `s` to address `p` and returns the address just past
the transferred bytes (the function itself lives in lib/stream.c, outside
this repository). -/
def stream_transfer (wb : WBuffer) (p : Nat) (obuf : List Nat) :
    WBuffer × Nat :=
  let off := p - wb.base
  ({ wb with
       data := wb.data.take off ++ obuf ++ wb.data.drop (off + obuf.length) },
   p + obuf.length)

def bgp_wbuff_size : Nat := BGP_MAX_MSG_L * 10

/-- `bgp_connection_write_direct` (source lines 661-695).  `flushRet` is
the oracle for `stream_flush_try`: 0 when everything was written, a
positive count of bytes left unwritten on a partial write, negative on an
I/O error (in which case `bgp_fsm_io_error` is raised and -1 returned). -/
def bgp_connection_write_direct (c : Conn) (flushRet : Int) : Int × Conn :=
  if flushRet = 0 then (1, { c with obuf := [] })
  else if 0 < flushRet then
    let wb0 := if c.wbuff.alloc then c.wbuff
               else bgp_write_buffer_init_new bgp_wbuff_size
    let t := stream_transfer wb0 wb0.base c.obuf
    let wb2 := { t.1 with p_in := t.2, p_out := t.2 - flushRet.toNat }
    (0, { c with obuf := [],
                 wbuff := wb2,
                 qf := { c.qf with write_enabled := true } })
  else (-1, c)

/-- `bgp_connection_write` (source lines 629-644): direct flush when the
write buffer is empty, otherwise transfer the obuf at `p_in`.  The source
returns 1 in the transfer branch and does not recompute `full`; both are
kept faithfully. -/
def bgp_connection_write (c : Conn) (flushRet : Int) : Int × Conn :=
  if bgp_write_buffer_empty c.wbuff then bgp_connection_write_direct c flushRet
  else
    let t := stream_transfer c.wbuff c.wbuff.p_in c.obuf
    (1, { c with obuf := [], wbuff := { t.1 with p_in := t.2 } })

/-- Outcome of the write-action loop on the socket. -/
inductive WriteOutcome where
  | drained
  | blocked
  | ioError (e : Nat)
  | exhausted
deriving DecidableEq

/-- What `bgp_connection_write_action` does after draining the buffer. -/
inductive PostAction where
  | sentNotificationEvent
  | queueAdd
  | noPost
deriving DecidableEq

/-- The while loop of `bgp_connection_write_action` (source lines
717-737), faithfully including the source's computation of the loop
variable `have = wb->p_out - wb->p_in` as a signed quantity.  The oracle
lists the successive `write()` results as (return value, errno) pairs;
the returned list records the byte count passed to each `write()` call. -/
def waLoop : Int → List (Int × Nat) → List Int × WriteOutcome
  | hav, [] =>
    if hav = 0 then ([], WriteOutcome.drained) else ([], WriteOutcome.exhausted)
  | hav, (ret, e) :: rest =>
    if hav = 0 then ([], WriteOutcome.drained)
    else if 0 < ret then
      let r := waLoop (hav - ret) rest
      (hav :: r.1, r.2)
    else if ret < 0 then
      if e = EINTR then
        let r := waLoop hav rest
        (hav :: r.1, r.2)
      else if e = EAGAIN ∨ e = EWOULDBLOCK then ([hav], WriteOutcome.blocked)
      else ([hav], WriteOutcome.ioError e)
    else
      let r := waLoop hav rest
      (hav :: r.1, r.2)

/-- `bgp_connection_write_action` (source lines 708-751): run the write
loop; only on a complete drain reset the buffer, disable write readiness
and post the Sent_NOTIFICATION event or add the connection to the ready
queue. -/
def bgp_connection_write_action (c : Conn) (oracle : List (Int × Nat)) :
    List Int × WriteOutcome × PostAction × Conn :=
  let wb := c.wbuff
  let hav : Int := (wb.p_out : Int) - (wb.p_in : Int)
  let r := waLoop hav oracle
  match r.2 with
  | WriteOutcome.drained =>
    let wb2 := { wb with p_out := wb.base, p_in := wb.base, full := false }
    (r.1, WriteOutcome.drained,
     (if c.notification_pending then PostAction.sentNotificationEvent
      else PostAction.queueAdd),
     { c with wbuff := wb2, qf := { c.qf with write_enabled := false } })
  | o => (r.1, o, PostAction.noPost, c)

/-! Model for `bgp_connection_make_primary` (source lines 220-253): the
session fields it touches, and the connection fields transferred.  The
connection's back pointer to the session is made explicit by passing the
session alongside. -/

structure SessionMP where
  conn0 : Option Nat
  conn1 : Option Nat
  host : List Nat
  open_recv : Option Nat
  su_local : Option Nat
  su_remote : Option Nat
  hold_timer_interval : Nat
  keepalive_timer_interval : Nat
deriving DecidableEq

structure ConnMP where
  id : Nat
  ordinal : Nat
  host : List Nat
  open_recv : Option Nat
  su_local : Option Nat
  su_remote : Option Nat
  hold_timer_interval : Nat
  keepalive_timer_interval : Nat
deriving DecidableEq

/-- `bgp_connection_init_host` (source lines 183-192): the connection's
host becomes the session's host followed by the tag. -/
def bgp_connection_init_host (host tag : List Nat) : List Nat := host ++ tag

/-- `bgp_connection_make_primary` (source lines 220-253), kept faithful to
the source, including line 247's
`session->keepalive_timer_interval = session->keepalive_timer_interval`. -/
def bgp_connection_make_primary (c : ConnMP) (s : SessionMP) :
    ConnMP × SessionMP :=
  let c1 := if c.ordinal ≠ 0 then { c with ordinal := 0 } else c
  let s1 := if c.ordinal ≠ 0 then { s with conn0 := some c.id } else s
  let s2 := { s1 with conn1 := none }
  let s3 := { s2 with open_recv := c1.open_recv }
  let c2 := { c1 with open_recv := none }
  let c3 := { c2 with host := bgp_connection_init_host s.host [] }
  let s4 := { s3 with hold_timer_interval := c3.hold_timer_interval }
  let s5 := { s4 with keepalive_timer_interval := s4.keepalive_timer_interval }
  let s6 := { s5 with su_local := c3.su_local }
  let c4 := { c3 with su_local := none }
  let s7 := { s6 with su_remote := c4.su_remote }
  let c5 := { c4 with su_remote := none }
  (c5, s7)

/-! Model for the connection queue (source lines 77, 316-404): connections
are named by identifiers, the intrusive next/prev pointers live in a map
from identifiers to queue records, and `bgp_connection_queue` is the
`queue` field. -/

def bgp_fsm_Stopping : Nat := 7

structure ConnQ where
  next : Option Nat
  prev : Option Nat
  state : Nat

structure EngState where
  conns : Nat → ConnQ
  queue : Option Nat

/-- `bgp_connection_queue_del` (source lines 346-369). -/
def bgp_connection_queue_del (s : EngState) (cid : Nat) : EngState :=
  match (s.conns cid).next, (s.conns cid).prev with
  | some nx, some pv =>
    if nx = cid then
      { queue := none,
        conns := Function.update s.conns cid
                   { s.conns cid with next := none, prev := none } }
    else
      let q1 : Option Nat := if s.queue = some cid then some nx else s.queue
      let f1 := Function.update s.conns nx { s.conns nx with prev := some pv }
      let f2 := Function.update f1 pv { f1 pv with next := some nx }
      let f3 := Function.update f2 cid
                  { f2 cid with next := none, prev := none }
      { conns := f3, queue := q1 }
  | _, _ => s

/-- Modelled from the spec: `bgp_connection_reset` frees the connection's
socket and timer resources and removes it from the ready queue (the
function itself is declared outside this file); only the queue removal is
observable in this model. -/
def bgp_connection_reset (s : EngState) (cid : Nat) : EngState :=
  bgp_connection_queue_del s cid

/-- One iteration of the while loop of `bgp_connection_queue_process`
(source lines 378-404): `none` when the loop guard fails and the function
returns.  The body advances the head cursor and reaps a Stopping
connection; the remainder of the body is empty in the source (placeholder
comments only). -/
def queueProcessStep (s : EngState) : Option EngState :=
  match s.queue with
  | none => none
  | some cid =>
    let c := s.conns cid
    let s1 : EngState := { s with queue := c.next }
    if c.state = bgp_fsm_Stopping then some (bgp_connection_reset s1 cid)
    else some s1

/-- Run `bgp_connection_queue_process` with the given amount of fuel:
`some s` when the loop has exited within the fuel, `none` when it is
still running. -/
def runQueue : Nat → EngState → Option EngState
  | 0, _ => none
  | n + 1, s =>
    match queueProcessStep s with
    | none => some s
    | some s2 => runQueue n s2

/-! Model for `bgp_connection_get_sibling` (source lines 199-211). -/

structure SessSib where
  c0 : Option Nat
  c1 : Option Nat
deriving DecidableEq

structure ConnSib where
  sess : Option SessSib
  ordinal : Nat
deriving DecidableEq

/-- `bgp_connection_get_sibling` (source lines 199-211): null when there
is no session, otherwise `session->connections[ordinal ^ 1]`. -/
def bgp_connection_get_sibling (c : ConnSib) : Option Nat :=
  match c.sess with
  | none => none
  | some s => if c.ordinal ^^^ 1 = 0 then s.c0 else s.c1

/-- A well-formed BGP message: all-ones marker, encoded length equal to
the actual length and within [19, 4096], accepted type code. -/
def WFmsg (m : List Nat) : Prop :=
  BGP_MH_HEAD_L ≤ m.length ∧ m.length ≤ BGP_MAX_MSG_L ∧
  m.take 16 = List.replicate 16 255 ∧
  256 * byteAt m 16 + byteAt m 17 = m.length ∧
  (byteAt m 18 = 1 ∨ byteAt m 18 = 2 ∨ byteAt m 18 = 3 ∨ byteAt m 18 = 4)

instance (m : List Nat) : Decidable (WFmsg m) := by
  unfold WFmsg
  infer_instance

/-- Build a well-formed message of the given total length and type:
marker, big-endian length, type, zero body. -/
def mkMsg (len ty : Nat) : List Nat :=
  List.replicate 16 255 ++ [len / 256, len % 256, ty] ++
    List.replicate (len - BGP_MH_HEAD_L) 0

/-! Model for `bgp_connection_read_action` (source lines 768-828): the
read-framing fields of the connection, with the socket modelled as a
list of bytes that have arrived and are not yet consumed. -/

structure ReaderState where
  read_pending : Nat
  read_header : Bool
  ibuf : List Nat
  fsm_err : Bool
deriving DecidableEq

/-- The read-framing state of a freshly initialised connection (structure
zeroised). -/
def initReader : ReaderState := ⟨0, false, [], false⟩

/-- The `want` value at entry of `bgp_connection_read_action` (source
lines 777-783): a fresh header when nothing is pending. -/
def want0 (st : ReaderState) : Nat :=
  if st.read_pending = 0 then BGP_MH_HEAD_L else st.read_pending

/-- The `read_header` flag at entry (set when a new message starts). -/
def rh0 (st : ReaderState) : Bool :=
  if st.read_pending = 0 then true else st.read_header

/-- The ibuf at entry (reset when a new message starts). -/
def ibuf0 (st : ReaderState) : List Nat :=
  if st.read_pending = 0 then [] else st.ibuf

/-- Modelled from the spec: non-blocking `stream_read_unblock` reads at
most `want` bytes, returning however many are currently available (zero
when the socket would block; the function lives in lib/stream.c, outside
this repository). -/
def stream_read_unblock (want : Nat) (buf : List Nat) : Nat :=
  min want buf.length

/-- Modelled from the spec: `bgp_msg_check_header` (declared outside this
file) validates the 19-byte header — marker all ones, length within
[BGP_MH_HEAD_L, BGP_MAX_MSG_L], accepted type — and returns the balance
of the message, failing (raising the FSM header event) otherwise. -/
def bgp_msg_check_header (hdr : List Nat) : Option Nat :=
  let len := 256 * byteAt hdr 16 + byteAt hdr 17
  if hdr.take 16 = List.replicate 16 255 ∧ BGP_MH_HEAD_L ≤ len ∧
      len ≤ BGP_MAX_MSG_L ∧
      (byteAt hdr 18 = 1 ∨ byteAt hdr 18 = 2 ∨ byteAt hdr 18 = 3 ∨
        byteAt hdr 18 = 4)
  then some (len - BGP_MH_HEAD_L) else none

/-- `bgp_connection_read_action` (source lines 768-828): one invocation of
the selector callback.  Returns the new framing state, the bytes left
unconsumed on the socket, and the message handed to `bgp_msg_dispatch`
when one completed.  The loop of the source runs at most two read rounds
per call (header completion, then body), which the definition lays out
directly; a failed header check records the raised FSM event in
`fsm_err`. -/
def bgp_connection_read_action (st : ReaderState) (buf : List Nat) :
    ReaderState × List Nat × Option (List Nat) :=
  let want := want0 st
  let rh := rh0 st
  let ib := ibuf0 st
  let ret := stream_read_unblock want buf
  let ib1 := ib ++ buf.take ret
  let buf1 := buf.drop ret
  if want - ret ≠ 0 then (⟨want - ret, rh, ib1, st.fsm_err⟩, buf1, none)
  else if rh = false then (⟨0, false, ib1, st.fsm_err⟩, buf1, some ib1)
  else
    match bgp_msg_check_header ib1 with
    | none => (⟨st.read_pending, false, ib1, true⟩, buf1, none)
    | some body =>
      let ret2 := stream_read_unblock body buf1
      let ib2 := ib1 ++ buf1.take ret2
      let buf2 := buf1.drop ret2
      if body - ret2 ≠ 0 then
        (⟨body - ret2, false, ib2, st.fsm_err⟩, buf2, none)
      else (⟨0, false, ib2, st.fsm_err⟩, buf2, some ib2)

/-- Drive `bgp_connection_read_action` to quiescence on the bytes
currently available, as the level-triggered selector does: re-invoke
while a message was dispatched and bytes remain.  Structural fuel; the
wrapper `feed` supplies enough. -/
def feedF : Nat → ReaderState → List Nat →
    ReaderState × List Nat × List (List Nat)
  | 0, st, buf => (st, buf, [])
  | fuel + 1, st, buf =>
    match bgp_connection_read_action st buf with
    | (st1, buf1, none) => (st1, buf1, [])
    | (st1, buf1, some m) =>
      if buf1 = [] then (st1, [], [m])
      else
        let r := feedF fuel st1 buf1
        (r.1, r.2.1, m :: r.2.2)

/-- Deliver one chunk of bytes and run the read action until it needs
more data: returns the final framing state, any bytes left unconsumed
(empty unless a framing error stopped the machine) and the dispatched
messages in order. -/
def feed (st : ReaderState) (buf : List Nat) :
    ReaderState × List Nat × List (List Nat) :=
  feedF (buf.length + 1) st buf

/-- Deliver a sequence of chunks, carrying unconsumed bytes between
deliveries, collecting all dispatched messages in order. -/
def feedAll : ReaderState → List Nat → List (List Nat) →
    ReaderState × List Nat × List (List Nat)
  | st, carry, [] => (st, carry, [])
  | st, carry, c :: rest =>
    let r := feed st (carry ++ c)
    let r2 := feedAll r.1 r.2.1 rest
    (r2.1, r2.2.1, r.2.2 ++ r2.2.2)

/-- The framing state after consuming exactly `k` bytes of message `m`,
for `1 ≤ k < m.length`: still inside the header, or inside the body. -/
def midState (m : List Nat) (k : Nat) : ReaderState :=
  if k < BGP_MH_HEAD_L then ⟨BGP_MH_HEAD_L - k, true, m.take k, false⟩
  else ⟨m.length - k, false, m.take k, false⟩

/-- The machine state corresponding to position `k` of the first message
of `ms`: at a boundary (`k = 0`) only `read_pending = 0` and no error are
required; inside a message the state is exactly `midState`. -/
def StateOK (ms : List (List Nat)) (k : Nat) (st : ReaderState) : Prop :=
  match k, ms with
  | 0, _ => st.read_pending = 0 ∧ st.fsm_err = false
  | _ + 1, [] => False
  | k + 1, m :: _ => st = midState m (k + 1) ∧ k + 1 < m.length

/-- Reference position arithmetic for the framer: the messages completed,
the remaining messages and the offset into their head. -/
structure RunRes where
  outs : List (List Nat)
  rest : List (List Nat)
  off : Nat
deriving DecidableEq

/-- Advance `n` bytes from offset `k` into the message list: collect the
messages whose last byte is passed. -/
def run2 : List (List Nat) → Nat → Nat → RunRes
  | [], _, _ => ⟨[], [], 0⟩
  | m :: rest, k, n =>
    if k + n < m.length then ⟨[], m :: rest, k + n⟩
    else
      let r := run2 rest 0 (k + n - m.length)
      ⟨m :: r.outs, r.rest, r.off⟩

/-- The byte stream still to arrive when the machine sits at offset `k`
of the message list `ms`. -/
def streamFrom (ms : List (List Nat)) (k : Nat) : List Nat :=
  ms.flatten.drop k

/-- The 19-byte KEEPALIVE of scenario S3. -/
def kmsgC8 : List Nat := List.replicate 16 255 ++ [0, 19, 4]

/-- Scenario S3's chunking of the KEEPALIVE: sizes 10, 8, 1. -/
def chunksC8 : List (List Nat) :=
  [kmsgC8.take 10, (kmsgC8.drop 10).take 8, kmsgC8.drop 18]

/-! Concrete states used by the counterexample evaluations and
witnesses. -/

def connBase : Conn where
  state := 3
  sessionId := some 1
  stopped := 0
  host := [104, 111, 115, 116]
  log := 0
  open_recv := none
  notification := none
  notification_pending := false
  su_local := none
  su_remote := none
  hold_timer_init := true
  keepalive_timer_init := true
  hold_timer_armed := false
  keepalive_timer_armed := false
  hold_timer_interval := 90
  keepalive_timer_interval := 30
  ibuf := []
  obuf := []
  read_pending := 0
  read_header := false
  wbuff := ⟨false, 0, 0, 0, 0, false, []⟩
  pending_queue := []
  qf := ⟨some 5, true, true, false⟩

/-- A connection whose write buffer holds one pending 19-byte message:
`p_out = base = 0`, `p_in = 19`. -/
def connC2 : Conn :=
  { connBase with wbuff := ⟨true, 0, 40960, 19, 0, false, []⟩ }

/-- A connection with a non-empty write buffer close to the high-water
mark: `p_in = 38000`, `limit = 40960`, and 1000 bytes staged in obuf. -/
def connC3 : Conn :=
  { connBase with
      wbuff := ⟨true, 0, 40960, 38000, 1000, false, []⟩,
      obuf := List.replicate 1000 0 }

/-- A connection with a non-empty write buffer and one message in obuf. -/
def connC4 : Conn :=
  { connBase with
      wbuff := ⟨true, 0, 40960, 19, 0, false, []⟩,
      obuf := List.replicate 19 1 }

/-- A connection whose write buffer was never lazily allocated: all four
pointers are NULL, modelled as address 0. -/
def connC6 : Conn :=
  { connBase with wbuff := ⟨false, 0, 0, 0, 0, false, []⟩ }

def msgA : List Nat := mkMsg 100 2

def msgB : List Nat := mkMsg 200 2

def msgC : List Nat := mkMsg 300 2

/-- A connection whose write buffer holds three whole messages of lengths
100, 200, 300 with `p_out = base + 150`, 50 bytes into the second one,
and a non-empty pending queue. -/
def connC5 : Conn :=
  { connBase with
      wbuff := ⟨true, 0, 40960, 600, 150, false, msgA ++ msgB ++ msgC⟩,
      pending_queue := [3, 4] }

def sessC1 : SessionMP :=
  ⟨some 10, some 11, [112, 101, 101, 114], none, none, none, 40, 99⟩

def connC1 : ConnMP :=
  ⟨11, 1, [112, 101, 101, 114, 50], some 7, some 21, some 22, 15, 30⟩

/-- A ready queue holding a single, self-linked connection that is not in
Stopping state. -/
def sC9 : EngState :=
  { conns := fun _ => ⟨some 0, some 0, 1⟩, queue := some 0 }

/-! Theorems. -/

/-- Claim C1 (code bug): `bgp_connection_make_primary` transfers
`open_recv`, `su_local`, `su_remote` and `hold_timer_interval` to the
session, promotes the ordinal, clears the secondary slot and rebuilds the
host without a tag, but line 247 assigns
`session->keepalive_timer_interval` to itself, so the session keeps its
old keepalive interval (99) instead of receiving the connection's
pre-call value (30). -/
theorem make_primary_keepalive_self_assign :
    ((bgp_connection_make_primary connC1 sessC1).2.keepalive_timer_interval = 99 ∧
     connC1.keepalive_timer_interval = 30 ∧
     (bgp_connection_make_primary connC1 sessC1).2.keepalive_timer_interval ≠
       connC1.keepalive_timer_interval) ∧
    ((bgp_connection_make_primary connC1 sessC1).2.hold_timer_interval =
       connC1.hold_timer_interval ∧
     (bgp_connection_make_primary connC1 sessC1).2.open_recv = some 7 ∧
     (bgp_connection_make_primary connC1 sessC1).1.open_recv = none ∧
     (bgp_connection_make_primary connC1 sessC1).2.su_local = some 21 ∧
     (bgp_connection_make_primary connC1 sessC1).1.su_local = none ∧
     (bgp_connection_make_primary connC1 sessC1).2.su_remote = some 22 ∧
     (bgp_connection_make_primary connC1 sessC1).1.su_remote = none ∧
     (bgp_connection_make_primary connC1 sessC1).2.conn0 = some 11 ∧
     (bgp_connection_make_primary connC1 sessC1).2.conn1 = none ∧
     (bgp_connection_make_primary connC1 sessC1).1.ordinal = 0 ∧
     (bgp_connection_make_primary connC1 sessC1).1.host = sessC1.host) := by
  decide

/-- Claim C2 (code bug): with one 19-byte message pending
(`p_in - p_out = 19`) and a socket willing to accept 19 bytes,
`bgp_connection_write_action` passes the count -19 to `write()` — line
717 computes `have = wb->p_out - wb->p_in`, operands reversed — and never
reaches the drain path that the claim describes. -/
theorem write_action_reversed_have :
    bgp_connection_write_action connC2 [(19, 0)] =
      ([-19], WriteOutcome.exhausted, PostAction.noPost, connC2) ∧
    (connC2.wbuff.p_in : Int) - (connC2.wbuff.p_out : Int) = 19 := by
  decide

/-- Claim C3 (code bug): `bgp_connection_write` transfers a 1000-byte obuf
into a non-empty wbuff, leaving `limit - p_in = 1960 < BGP_MAX_MSG_L`,
yet the `full` flag stays false: the source never recomputes
`full` after the transfer (and never sets it true anywhere), so the
claimed equivalence `full ⇔ (limit - p_in) < BGP_MAX_MSG_L` is not
re-established. -/
theorem write_full_flag_stale :
    (bgp_connection_write connC3 0).2.wbuff.full = false ∧
    (bgp_connection_write connC3 0).2.wbuff.limit -
      (bgp_connection_write connC3 0).2.wbuff.p_in < BGP_MAX_MSG_L ∧
    bgp_write_buffer_full (bgp_connection_write connC3 0).2.wbuff = true := by
  decide

/-- Claim C4 (code bug): when the wbuff is non-empty,
`bgp_connection_write` transfers the obuf and returns 1 ("done", line
643) even though the write buffer is not empty; its own header comment
(lines 625-627) and the claim require 0 ("buffered") here. -/
theorem write_buffered_returns_one :
    (bgp_connection_write connC4 0).1 = 1 ∧
    (bgp_connection_write connC4 0).2.wbuff.p_out ≠
      (bgp_connection_write connC4 0).2.wbuff.p_in := by
  decide

/-- Claim C6 (code bug): on a connection whose wbuff was never allocated
(base, p_in, p_out, limit all NULL), `bgp_connection_part_close` computes
`full = (limit - p_in < BGP_MAX_MSG_L) = (0 < 4096) = true`, so the
`assert(!wb->full)` at line 599 fails instead of holding as the claim
states. -/
theorem part_close_null_wbuff_full :
    (bgp_connection_part_close connC6).wbuff.full = true ∧
    connC6.wbuff.base = 0 ∧ connC6.wbuff.limit = 0 ∧
    connC6.wbuff.p_in = 0 ∧ connC6.wbuff.p_out = 0 := by
  decide

/-- Claim C7: `bgp_connection_close` is idempotent, performs exactly the
documented resets (qfile unregistered and fd shut, endpoints cleared,
timers unset, ibuf/obuf reset, read framing and notification_pending
zeroed, wbuff pointers reset with full cleared, pending queue emptied)
and leaves state, session link, timer initialisation, buffer allocation,
host, log, open_recv, notification and the stopped cause unchanged. -/
theorem close_idempotent_frame (c : Conn) :
    bgp_connection_close (bgp_connection_close c) = bgp_connection_close c ∧
    ((bgp_connection_close c).qf.fd = none ∧
     (bgp_connection_close c).qf.registered = false ∧
     (bgp_connection_close c).su_local = none ∧
     (bgp_connection_close c).su_remote = none ∧
     (bgp_connection_close c).hold_timer_armed = false ∧
     (bgp_connection_close c).keepalive_timer_armed = false ∧
     (bgp_connection_close c).ibuf = [] ∧
     (bgp_connection_close c).obuf = [] ∧
     (bgp_connection_close c).read_pending = 0 ∧
     (bgp_connection_close c).read_header = false ∧
     (bgp_connection_close c).notification_pending = false ∧
     (bgp_connection_close c).wbuff.p_in = c.wbuff.base ∧
     (bgp_connection_close c).wbuff.p_out = c.wbuff.base ∧
     (bgp_connection_close c).wbuff.full = false ∧
     (bgp_connection_close c).pending_queue = []) ∧
    ((bgp_connection_close c).state = c.state ∧
     (bgp_connection_close c).sessionId = c.sessionId ∧
     (bgp_connection_close c).hold_timer_init = c.hold_timer_init ∧
     (bgp_connection_close c).keepalive_timer_init = c.keepalive_timer_init ∧
     (bgp_connection_close c).hold_timer_interval = c.hold_timer_interval ∧
     (bgp_connection_close c).keepalive_timer_interval =
       c.keepalive_timer_interval ∧
     (bgp_connection_close c).wbuff.alloc = c.wbuff.alloc ∧
     (bgp_connection_close c).wbuff.base = c.wbuff.base ∧
     (bgp_connection_close c).wbuff.limit = c.wbuff.limit ∧
     (bgp_connection_close c).wbuff.data = c.wbuff.data ∧
     (bgp_connection_close c).host = c.host ∧
     (bgp_connection_close c).log = c.log ∧
     (bgp_connection_close c).open_recv = c.open_recv ∧
     (bgp_connection_close c).notification = c.notification ∧
     (bgp_connection_close c).stopped = c.stopped) := by
  exact ⟨rfl, ⟨rfl, rfl, rfl, rfl, rfl, rfl, rfl, rfl, rfl, rfl, rfl, rfl,
    rfl, rfl, rfl⟩, ⟨rfl, rfl, rfl, rfl, rfl, rfl, rfl, rfl, rfl, rfl, rfl,
    rfl, rfl, rfl, rfl⟩⟩

/-- Claim C9 (code bug): on a ready queue holding one connection that is
not Stopping, each iteration of `bgp_connection_queue_process` leaves the
engine state unchanged (the loop body only advances the cursor and reaps
Stopping connections; the drain logic is an empty placeholder in the
source), so the loop never terminates for any amount of fuel, contrary to
the claimed termination with an empty queue. -/
theorem queue_process_nontermination :
    (∀ n, runQueue n sC9 = none) ∧
    sC9.queue = some 0 ∧
    (sC9.conns 0).state ≠ bgp_fsm_Stopping ∧
    queueProcessStep sC9 = some sC9 := by
  have hstep : queueProcessStep sC9 = some sC9 := rfl
  refine ⟨?_, rfl, by decide, hstep⟩
  intro n
  induction n with
  | zero => rfl
  | succ n ih =>
    show (match queueProcessStep sC9 with
          | none => some sC9
          | some s2 => runQueue n s2) = none
    rw [hstep]
    exact ih

/-- Claim C10: `bgp_connection_get_sibling` returns null rather than
failing when the connection's session is null, and otherwise returns
`session->connections[ordinal ^ 1]`, which may itself be null. -/
theorem get_sibling_null_safe (c : ConnSib) :
    (c.sess = none → bgp_connection_get_sibling c = none) ∧
    (∀ s, c.sess = some s →
      bgp_connection_get_sibling c =
        (if c.ordinal ^^^ 1 = 0 then s.c0 else s.c1)) := by
  constructor
  · intro h
    simp [bgp_connection_get_sibling, h]
  · intro s h
    simp [bgp_connection_get_sibling, h]

/-- Witness for C10: a sessionless connection yields null; a secondary
connection attached to a session with only a primary yields that
primary. -/
theorem get_sibling_null_safe_witness :
    bgp_connection_get_sibling ⟨none, 0⟩ = none ∧
    bgp_connection_get_sibling ⟨some ⟨some 5, none⟩, 1⟩ = some 5 := by
  constructor
  · exact (get_sibling_null_safe ⟨none, 0⟩).1 rfl
  · have h := (get_sibling_null_safe ⟨some ⟨some 5, none⟩, 1⟩).2
      ⟨some 5, none⟩ rfl
    rw [h]
    decide

/-! Lemmas supporting the part-close purge (claim C5). -/

theorem byteAt_shift (l : List Nat) (a b : Nat) :
    byteAt l (a + b) = byteAt (l.drop a) b := by
  unfold byteAt
  rw [List.drop_drop]

theorem byteAt_append_lt : ∀ (m t : List Nat) (n : Nat), n < m.length →
    byteAt (m ++ t) n = byteAt m n
  | [], _, n, h => absurd h (by simp)
  | _ :: _, _, 0, _ => rfl
  | _ :: xs, t, n + 1, h =>
    byteAt_append_lt xs t n (Nat.lt_of_succ_lt_succ h)

theorem get_mlen_head (wb : WBuffer) (off : Nat) (m t : List Nat)
    (h : m ++ t = wb.data.drop off) (hwf : WFmsg m) :
    bgp_msg_get_mlen wb (wb.base + off) = m.length := by
  obtain ⟨h19, -, -, henc, -⟩ := hwf
  have h19' : BGP_MH_HEAD_L = 19 := rfl
  unfold bgp_msg_get_mlen
  have e16 : wb.base + off + 16 - wb.base = off + 16 := by omega
  have e17 : wb.base + off + 17 - wb.base = off + 17 := by omega
  rw [e16, e17, byteAt_shift, byteAt_shift, ← h,
      byteAt_append_lt m t 16 (by omega), byteAt_append_lt m t 17 (by omega),
      henc]

theorem count_le_flatten : ∀ ms : List (List Nat),
    (∀ x ∈ ms, 1 ≤ x.length) → ms.length ≤ ms.flatten.length := by
  intro ms
  induction ms with
  | nil => simp
  | cons m tl ih =>
    intro h
    have h1 : 1 ≤ m.length := h m (by simp)
    have h2 : tl.length ≤ tl.flatten.length :=
      ih (fun x hx => h x (by simp [hx]))
    simp only [List.flatten_cons, List.length_cons, List.length_append]
    omega

theorem partCloseWalk_spec (wb : WBuffer) (pout : Nat) :
    ∀ (msA : List (List Nat)) (mj : List Nat) (off r fuel p mlen : Nat),
      (∀ x ∈ msA, WFmsg x) → WFmsg mj →
      (∃ t, (msA.flatten ++ mj) ++ t = wb.data.drop off) →
      r < mj.length → msA.length < fuel → p + mlen = wb.base + off →
      pout = wb.base + off + msA.flatten.length + r →
      partCloseWalk wb pout fuel p mlen =
        (wb.base + off + msA.flatten.length, mj.length) := by
  intro msA
  induction msA with
  | nil =>
    intro mj off r fuel p mlen _ hmj henc hr hfuel hp hpout
    obtain ⟨t, ht⟩ := henc
    cases fuel with
    | zero => omega
    | succ f =>
      have hm : bgp_msg_get_mlen wb (p + mlen) = mj.length := by
        rw [hp]
        exact get_mlen_head wb off mj t (by simpa using ht) hmj
      have h19 : 19 ≤ mj.length := hmj.1
      simp only [partCloseWalk, hm]
      rw [if_neg (by simp only [List.flatten_nil, List.length_nil] at hpout; omega)]
      simp only [List.flatten_nil, List.length_nil]
      rw [hp]
      simp
  | cons m ms ih =>
    intro mj off r fuel p mlen hwf hmj henc hr hfuel hp hpout
    obtain ⟨t, ht⟩ := henc
    have hwm : WFmsg m := hwf m (by simp)
    cases fuel with
    | zero => simp at hfuel
    | succ f =>
      have ht' : m ++ ((ms.flatten ++ mj) ++ t) = wb.data.drop off := by
        rw [← ht]
        simp [List.flatten_cons, List.append_assoc]
      have hm : bgp_msg_get_mlen wb (p + mlen) = m.length := by
        rw [hp]
        exact get_mlen_head wb off m ((ms.flatten ++ mj) ++ t) ht' hwm
      have hlen : (m :: ms).flatten.length = m.length + ms.flatten.length := by
        simp [List.flatten_cons]
      have hdrop : (ms.flatten ++ mj) ++ t = wb.data.drop (off + m.length) := by
        rw [← List.drop_drop, ← ht', List.drop_left]
      simp only [partCloseWalk, hm]
      rw [if_pos (by rw [hp, hpout, hlen]; omega)]
      have hrec := ih mj (off + m.length) r f (p + mlen) m.length
        (fun x hx => hwf x (by simp [hx])) hmj ⟨t, hdrop⟩ hr
        (by simp only [List.length_cons] at hfuel; omega)
        (by omega)
        (by rw [hpout, hlen]; omega)
      rw [hrec, hlen]
      have : wb.base + (off + m.length) + ms.flatten.length =
          wb.base + off + (m.length + ms.flatten.length) := by omega
      rw [this]

/-- Claim C5: for a write buffer holding whole messages with `p_out`
inside or at the start of one of them, `bgp_connection_part_close` keeps
exactly the in-flight message: at a boundary the buffer is emptied,
otherwise the message containing `p_out` is moved to `base` with
`p_out = base + r` and `p_in = base + mlen`; the pending queue is
emptied. -/
theorem part_close_keeps_inflight
    (c : Conn) (ms1 ms2 : List (List Nat)) (mj : List Nat) (r : Nat)
    (hwf : ∀ x ∈ ms1 ++ mj :: ms2, WFmsg x)
    (hdata : ∃ t, (ms1 ++ mj :: ms2).flatten ++ t = c.wbuff.data)
    (hpin : c.wbuff.p_in = c.wbuff.base + ((ms1 ++ mj :: ms2).flatten).length)
    (hpout : c.wbuff.p_out = c.wbuff.base + ms1.flatten.length + r)
    (hr : r < mj.length) :
    ((r = 0 → (bgp_connection_part_close c).wbuff.p_in = c.wbuff.base ∧
              (bgp_connection_part_close c).wbuff.p_out = c.wbuff.base) ∧
     (r ≠ 0 → (bgp_connection_part_close c).wbuff.p_out = c.wbuff.base + r ∧
              (bgp_connection_part_close c).wbuff.p_in =
                c.wbuff.base + mj.length ∧
              (bgp_connection_part_close c).wbuff.data.take mj.length = mj)) ∧
    (bgp_connection_part_close c).pending_queue = [] := by
  obtain ⟨t, ht⟩ := hdata
  have hwbeq : (bgp_connection_part_close c).wbuff = partCloseWbuff c.wbuff :=
    rfl
  have hpq : (bgp_connection_part_close c).pending_queue = [] := rfl
  have hmj : WFmsg mj := hwf mj (by simp)
  have hwf1 : ∀ x ∈ ms1, WFmsg x := fun x hx => hwf x (by simp [hx])
  have hflat : (ms1 ++ mj :: ms2).flatten =
      ms1.flatten ++ (mj ++ ms2.flatten) := by
    simp [List.flatten_append, List.flatten_cons]
  have hlen : ((ms1 ++ mj :: ms2).flatten).length =
      ms1.flatten.length + (mj.length + ms2.flatten.length) := by
    rw [hflat]
    simp [List.length_append]
  have h19 : 19 ≤ mj.length := hmj.1
  have hne : c.wbuff.p_in ≠ c.wbuff.p_out := by
    rw [hpin, hpout, hlen]
    omega
  have hdlen : ms1.flatten.length + mj.length ≤ c.wbuff.data.length := by
    have h2 := congrArg List.length ht
    rw [List.length_append, hlen] at h2
    omega
  have hcnt : ms1.length ≤ ms1.flatten.length :=
    count_le_flatten ms1 (fun x hx => by
      have h3 : 19 ≤ x.length := (hwf1 x hx).1
      omega)
  have henc : ∃ u, (ms1.flatten ++ mj) ++ u = c.wbuff.data.drop 0 := by
    refine ⟨ms2.flatten ++ t, ?_⟩
    rw [List.drop_zero, ← ht, hflat]
    simp [List.append_assoc]
  have hwalk : partCloseWalk c.wbuff c.wbuff.p_out
      (c.wbuff.data.length + 1) c.wbuff.base 0 =
      (c.wbuff.base + 0 + ms1.flatten.length, mj.length) :=
    partCloseWalk_spec c.wbuff c.wbuff.p_out ms1 mj 0 r
      (c.wbuff.data.length + 1) c.wbuff.base 0 hwf1 hmj henc hr
      (by omega) (by omega) (by rw [hpout]; omega)
  have hdropA : c.wbuff.data.drop ms1.flatten.length = mj ++ (ms2.flatten ++ t) := by
    have ht2 : ms1.flatten ++ (mj ++ (ms2.flatten ++ t)) = c.wbuff.data := by
      rw [← ht, hflat]
      simp [List.append_assoc]
    rw [← ht2, List.drop_left]
  refine ⟨⟨?_, ?_⟩, hpq⟩
  · intro h0
    subst h0
    have hdec : (partCloseWalk c.wbuff c.wbuff.p_out
        (c.wbuff.data.length + 1) c.wbuff.base 0).1 = c.wbuff.p_out := by
      rw [hwalk]
      show c.wbuff.base + 0 + ms1.flatten.length = c.wbuff.p_out
      rw [hpout]
      omega
    rw [hwbeq]
    unfold partCloseWbuff
    rw [if_pos hne, if_pos hdec]
    constructor
    · simp
    · simp [hdec]
  · intro hr0
    have hdec : (partCloseWalk c.wbuff c.wbuff.p_out
        (c.wbuff.data.length + 1) c.wbuff.base 0).1 ≠ c.wbuff.p_out := by
      rw [hwalk]
      show c.wbuff.base + 0 + ms1.flatten.length ≠ c.wbuff.p_out
      rw [hpout]
      omega
    rw [hwbeq]
    unfold partCloseWbuff
    rw [if_pos hne, if_neg hdec]
    have hp1 : (partCloseWalk c.wbuff c.wbuff.p_out
        (c.wbuff.data.length + 1) c.wbuff.base 0).1 =
        c.wbuff.base + 0 + ms1.flatten.length := by rw [hwalk]
    refine ⟨?_, ?_, ?_⟩
    · show c.wbuff.base + (c.wbuff.p_out -
          (partCloseWalk c.wbuff c.wbuff.p_out (c.wbuff.data.length + 1)
            c.wbuff.base 0).1) = c.wbuff.base + r
      rw [hp1, hpout]
      omega
    · simp [hwalk]
    · simp only [hwalk]
      have e1 : c.wbuff.base + 0 + ms1.flatten.length - c.wbuff.base =
          ms1.flatten.length := by omega
      rw [e1, hdropA]
      have e2 : (mj ++ (ms2.flatten ++ t)).take mj.length = mj :=
        List.take_left mj _
      rw [e2]
      exact List.take_left mj _

/-- Witness for C5: with messages of lengths 100, 200, 300 and
`p_out = base + 150`, part-close keeps the 200-byte message at `base`,
`p_out = base + 50`, `p_in = base + 200`, and empties the pending
queue. -/
theorem part_close_keeps_inflight_witness :
    (bgp_connection_part_close connC5).wbuff.p_out = 50 ∧
    (bgp_connection_part_close connC5).wbuff.p_in = 200 ∧
    (bgp_connection_part_close connC5).wbuff.data.take 200 = msgB ∧
    (bgp_connection_part_close connC5).pending_queue = [] := by
  have h := part_close_keeps_inflight connC5 [msgA] [msgC] msgB 50
    (by decide) ⟨[], by decide⟩ (by decide) (by decide) (by decide)
  obtain ⟨⟨-, h1⟩, h2⟩ := h
  obtain ⟨ha, hb, hc⟩ := h1 (by decide)
  refine ⟨?_, ?_, ?_, h2⟩
  · rw [ha]
    decide
  · rw [hb]
    decide
  · have hlen : msgB.length = 200 := by decide
    rw [← hlen]
    exact hc

/-! Lemmas supporting the read framer (claim C8). -/

theorem want0_pos (st : ReaderState) : 1 ≤ want0 st := by
  unfold want0
  split
  · decide
  · omega

theorem boundary_fields (st : ReaderState) (h : st.read_pending = 0) :
    want0 st = BGP_MH_HEAD_L ∧ rh0 st = true ∧ ibuf0 st = [] := by
  refine ⟨?_, ?_, ?_⟩ <;> simp [want0, rh0, ibuf0, h]

theorem readAction_some_lt {st : ReaderState} {buf : List Nat}
    {st1 : ReaderState} {buf1 : List Nat} {m : List Nat}
    (h : bgp_connection_read_action st buf = (st1, buf1, some m)) :
    buf1.length < buf.length := by
  have hw := want0_pos st
  simp only [bgp_connection_read_action, stream_read_unblock] at h
  by_cases h1 : want0 st - min (want0 st) buf.length ≠ 0
  · rw [if_pos h1] at h
    simp at h
  · rw [if_neg h1] at h
    have hle : want0 st ≤ buf.length := by omega
    have hmin : min (want0 st) buf.length = want0 st := by omega
    by_cases h2 : rh0 st = false
    · rw [if_pos h2] at h
      have hbuf1 : buf.drop (min (want0 st) buf.length) = buf1 :=
        congrArg (fun x => x.2.1) h
      rw [← hbuf1, List.length_drop]
      omega
    · rw [if_neg h2] at h
      cases hc : bgp_msg_check_header
          (ibuf0 st ++ buf.take (min (want0 st) buf.length)) with
      | none =>
        simp only [hc] at h
        simp at h
      | some body =>
        simp only [hc] at h
        by_cases h3 : body -
            min body (buf.drop (min (want0 st) buf.length)).length ≠ 0
        · rw [if_pos h3] at h
          simp at h
        · rw [if_neg h3] at h
          have hbuf1 : (buf.drop (min (want0 st) buf.length)).drop
              (min body (buf.drop (min (want0 st) buf.length)).length) =
              buf1 :=
            congrArg (fun x => x.2.1) h
          rw [← hbuf1, List.length_drop, List.length_drop]
          omega

theorem feedF_irrel : ∀ (f g : Nat) (st : ReaderState) (buf : List Nat),
    buf.length < f → buf.length < g → feedF f st buf = feedF g st buf := by
  intro f
  induction f with
  | zero =>
    intro g st buf hf _
    exact absurd hf (Nat.not_lt_zero _)
  | succ f ih =>
    intro g st buf hf hg
    cases g with
    | zero => exact absurd hg (Nat.not_lt_zero _)
    | succ g =>
      simp only [feedF]
      cases h : bgp_connection_read_action st buf with
      | mk st1 p =>
        cases p with
        | mk buf1 om =>
          cases om with
          | none => rfl
          | some m =>
            dsimp only
            by_cases hb : buf1 = []
            · rw [if_pos hb, if_pos hb]
            · rw [if_neg hb, if_neg hb]
              have hlt := readAction_some_lt h
              rw [ih g st1 buf1 (by omega) (by omega)]

theorem feed_none {st : ReaderState} {buf : List Nat} {st1 : ReaderState}
    {buf1 : List Nat}
    (h : bgp_connection_read_action st buf = (st1, buf1, none)) :
    feed st buf = (st1, buf1, []) := by
  show feedF (buf.length + 1) st buf = _
  simp only [feedF, h]

theorem feed_some_nil {st : ReaderState} {buf : List Nat}
    {st1 : ReaderState} {m : List Nat}
    (h : bgp_connection_read_action st buf = (st1, [], some m)) :
    feed st buf = (st1, [], [m]) := by
  show feedF (buf.length + 1) st buf = _
  simp [feedF, h]

theorem feed_some_cons {st : ReaderState} {buf : List Nat}
    {st1 : ReaderState} {buf1 : List Nat} {m : List Nat}
    (h : bgp_connection_read_action st buf = (st1, buf1, some m))
    (hb : buf1 ≠ []) :
    feed st buf = ((feed st1 buf1).1, (feed st1 buf1).2.1,
      m :: (feed st1 buf1).2.2) := by
  show feedF (buf.length + 1) st buf = _
  simp only [feedF, h]
  rw [if_neg hb]
  have hlt := readAction_some_lt h
  rw [feedF_irrel buf.length (buf1.length + 1) st1 buf1 (by omega)
    (by omega)]
  rfl

theorem app_take_le (a b : List Nat) (j : Nat) (h : j ≤ a.length) :
    (a ++ b).take j = a.take j := by
  rw [List.take_append_eq_append_take]
  have e : j - a.length = 0 := by omega
  rw [e]
  simp

theorem app_drop_le (a b : List Nat) (j : Nat) (h : j ≤ a.length) :
    (a ++ b).drop j = a.drop j ++ b := by
  rw [List.drop_append_eq_append_drop]
  have e : j - a.length = 0 := by omega
  rw [e]
  simp

theorem headD_take {l : List Nat} {s : Nat} (h : 1 ≤ s) :
    (l.take s).headD 0 = l.headD 0 := by
  cases l with
  | nil => simp
  | cons x xs =>
    cases s with
    | zero => omega
    | succ s => simp

theorem byteAt_take {l : List Nat} {n j : Nat} (h : j < n) :
    byteAt (l.take n) j = byteAt l j := by
  unfold byteAt
  rw [List.drop_take]
  exact headD_take (by omega)

theorem check_header_wf (m : List Nat) (h : WFmsg m) :
    bgp_msg_check_header (m.take BGP_MH_HEAD_L) =
      some (m.length - BGP_MH_HEAD_L) := by
  obtain ⟨h1, h2, h3, h4, h5⟩ := h
  simp only [bgp_msg_check_header]
  have e16 : byteAt (m.take BGP_MH_HEAD_L) 16 = byteAt m 16 :=
    byteAt_take (by decide)
  have e17 : byteAt (m.take BGP_MH_HEAD_L) 17 = byteAt m 17 :=
    byteAt_take (by decide)
  have e18 : byteAt (m.take BGP_MH_HEAD_L) 18 = byteAt m 18 :=
    byteAt_take (by decide)
  have e0 : (m.take BGP_MH_HEAD_L).take 16 = m.take 16 := by
    rw [List.take_take]
    norm_num [BGP_MH_HEAD_L]
  rw [e16, e17, e18, e0, h4]
  rw [if_pos ⟨h3, h1, h2, h5⟩]

theorem midState_lt_fields (m : List Nat) (k : Nat)
    (h2 : k < BGP_MH_HEAD_L) :
    want0 (midState m k) = BGP_MH_HEAD_L - k ∧
    rh0 (midState m k) = true ∧
    ibuf0 (midState m k) = m.take k ∧
    (midState m k).fsm_err = false := by
  have e : midState m k = ⟨BGP_MH_HEAD_L - k, true, m.take k, false⟩ := by
    unfold midState
    rw [if_pos h2]
  rw [e]
  have hne : BGP_MH_HEAD_L - k ≠ 0 := by
    simp only [BGP_MH_HEAD_L] at h2 ⊢
    omega
  refine ⟨?_, ?_, ?_, rfl⟩ <;> simp [want0, rh0, ibuf0, hne]

theorem midState_ge_fields (m : List Nat) (k : Nat)
    (h1 : BGP_MH_HEAD_L ≤ k) (h2 : k < m.length) :
    want0 (midState m k) = m.length - k ∧
    rh0 (midState m k) = false ∧
    ibuf0 (midState m k) = m.take k ∧
    (midState m k).fsm_err = false := by
  have e : midState m k = ⟨m.length - k, false, m.take k, false⟩ := by
    unfold midState
    rw [if_neg (by omega)]
  rw [e]
  have hne : m.length - k ≠ 0 := by omega
  refine ⟨?_, ?_, ?_, rfl⟩ <;> simp [want0, rh0, ibuf0, hne]

theorem RA_short (st : ReaderState) (buf : List Nat)
    (h : buf.length < want0 st) :
    bgp_connection_read_action st buf =
      (⟨want0 st - buf.length, rh0 st, ibuf0 st ++ buf, st.fsm_err⟩, [],
       none) := by
  have hmin : min (want0 st) buf.length = buf.length := by omega
  simp only [bgp_connection_read_action, stream_read_unblock, hmin,
    List.take_length, List.drop_length]
  rw [if_pos (by omega)]

theorem RA_body_done (st : ReaderState) (buf : List Nat)
    (hrh : rh0 st = false) (h : want0 st ≤ buf.length) :
    bgp_connection_read_action st buf =
      (⟨0, false, ibuf0 st ++ buf.take (want0 st), st.fsm_err⟩,
       buf.drop (want0 st),
       some (ibuf0 st ++ buf.take (want0 st))) := by
  have hmin : min (want0 st) buf.length = want0 st := by omega
  simp only [bgp_connection_read_action, stream_read_unblock, hmin]
  rw [if_neg (by omega), if_pos hrh]

theorem RA_header_more (st : ReaderState) (buf : List Nat) (body : Nat)
    (hrh : rh0 st = true) (h1 : want0 st ≤ buf.length)
    (hchk : bgp_msg_check_header (ibuf0 st ++ buf.take (want0 st)) =
      some body)
    (h2 : buf.length < want0 st + body) :
    bgp_connection_read_action st buf =
      (⟨want0 st + body - buf.length, false, ibuf0 st ++ buf, st.fsm_err⟩,
       [], none) := by
  have hmin : min (want0 st) buf.length = want0 st := by omega
  simp only [bgp_connection_read_action, stream_read_unblock, hmin]
  rw [if_neg (by omega), if_neg (by simp [hrh])]
  simp only [hchk, List.length_drop]
  have hmin2 : min body (buf.length - want0 st) = buf.length - want0 st := by
    omega
  rw [hmin2]
  have e1 : (buf.drop (want0 st)).take (buf.length - want0 st) =
      buf.drop (want0 st) := by
    rw [← List.length_drop]
    exact List.take_length _
  have e2 : (buf.drop (want0 st)).drop (buf.length - want0 st) =
      ([] : List Nat) := by
    rw [← List.length_drop]
    exact List.drop_length _
  rw [e1, e2, List.append_assoc, List.take_append_drop]
  rw [if_pos (by omega)]
  have e3 : body - (buf.length - want0 st) =
      want0 st + body - buf.length := by omega
  rw [e3]

theorem RA_header_done (st : ReaderState) (buf : List Nat) (body : Nat)
    (hrh : rh0 st = true) (h1 : want0 st ≤ buf.length)
    (hchk : bgp_msg_check_header (ibuf0 st ++ buf.take (want0 st)) =
      some body)
    (h2 : want0 st + body ≤ buf.length) :
    bgp_connection_read_action st buf =
      (⟨0, false, ibuf0 st ++ buf.take (want0 st + body), st.fsm_err⟩,
       buf.drop (want0 st + body),
       some (ibuf0 st ++ buf.take (want0 st + body))) := by
  have hmin : min (want0 st) buf.length = want0 st := by omega
  simp only [bgp_connection_read_action, stream_read_unblock, hmin]
  rw [if_neg (by omega), if_neg (by simp [hrh])]
  simp only [hchk, List.length_drop]
  have hmin2 : min body (buf.length - want0 st) = body := by omega
  rw [hmin2]
  rw [if_neg (by omega)]
  rw [List.append_assoc, ← List.take_add, List.drop_drop]

theorem seg_take (c t md x : List Nat) (h : c ++ t = md ++ x) (j : Nat)
    (hj : j ≤ c.length) (hj2 : j ≤ md.length) : c.take j = md.take j := by
  have h1 := congrArg (List.take j) h
  rw [app_take_le c t j hj, app_take_le md x j hj2] at h1
  exact h1

theorem take_k_add (m : List Nat) (k j : Nat) (c t x : List Nat)
    (h : c ++ t = m.drop k ++ x) (hj : j ≤ c.length)
    (hkj : k + j ≤ m.length) :
    m.take k ++ c.take j = m.take (k + j) := by
  rw [seg_take c t (m.drop k) x h j hj (by rw [List.length_drop]; omega)]
  rw [← List.take_add]

theorem take_k_add_full (m : List Nat) (k : Nat) (c t x : List Nat)
    (h : c ++ t = m.drop k ++ x) (hkc : k + c.length ≤ m.length) :
    m.take k ++ c = m.take (k + c.length) := by
  have h2 := take_k_add m k c.length c t x h (le_refl _) hkc
  rw [List.take_length] at h2
  exact h2

theorem take_k_full_msg (m : List Nat) (k : Nat) (c t x : List Nat)
    (h : c ++ t = m.drop k ++ x) (hk : k ≤ m.length)
    (hge : m.length - k ≤ c.length) :
    m.take k ++ c.take (m.length - k) = m := by
  rw [take_k_add m k (m.length - k) c t x h hge (by omega)]
  have e : k + (m.length - k) = m.length := by omega
  rw [e, List.take_length]

theorem seg_drop_rest (m : List Nat) (k : Nat) (c t x : List Nat)
    (h : c ++ t = m.drop k ++ x) (hge : m.length - k ≤ c.length) :
    c.drop (m.length - k) ++ t = x := by
  have h1 := congrArg (List.drop (m.length - k)) h
  rw [app_drop_le c t _ hge] at h1
  have h2 : (m.drop k ++ x).drop (m.length - k) = x := by
    have e : m.length - k = (m.drop k).length := (List.length_drop _ _).symm
    rw [e, List.drop_left]
  rw [h2] at h1
  exact h1

/-- Entry facts of the read action at position `k` of message `m`: what
`want0`, `rh0`, `ibuf0` evaluate to on any state allowed by `StateOK`. -/
def EntryW (m : List Nat) (k : Nat) (st : ReaderState) : Prop :=
  ibuf0 st = m.take k ∧ st.fsm_err = false ∧
  ((k < BGP_MH_HEAD_L ∧ want0 st = BGP_MH_HEAD_L - k ∧ rh0 st = true) ∨
   (BGP_MH_HEAD_L ≤ k ∧ want0 st = m.length - k ∧ rh0 st = false))

theorem RA_mid_none (m : List Nat) (k : Nat) (st : ReaderState)
    (c t x : List Nat) (hwm : WFmsg m) (hent : EntryW m k st)
    (hstream : c ++ t = m.drop k ++ x)
    (hlt : k + c.length < m.length) :
    bgp_connection_read_action st c = (midState m (k + c.length), [], none) := by
  obtain ⟨hfA, herr, hfW⟩ := hent
  have h19m : BGP_MH_HEAD_L ≤ m.length := hwm.1
  rcases hfW with ⟨hkB, hw, hrh⟩ | ⟨hkB, hw, hrh⟩
  · by_cases hsplit : c.length < want0 st
    · rw [RA_short st c hsplit]
      have hkc : k + c.length < BGP_MH_HEAD_L := by omega
      unfold midState
      rw [if_pos hkc]
      rw [hw, hrh, hfA, herr,
        take_k_add_full m k c t x hstream (by omega), Nat.sub_sub]
    · have hle : want0 st ≤ c.length := by omega
      have hib : ibuf0 st ++ c.take (want0 st) = m.take BGP_MH_HEAD_L := by
        rw [hfA, hw,
          take_k_add m k (BGP_MH_HEAD_L - k) c t x hstream (by omega)
            (by omega)]
        have e : k + (BGP_MH_HEAD_L - k) = BGP_MH_HEAD_L := by omega
        rw [e]
      have hchk : bgp_msg_check_header (ibuf0 st ++ c.take (want0 st)) =
          some (m.length - BGP_MH_HEAD_L) := by
        rw [hib]
        exact check_header_wf m hwm
      have hbody2 : c.length < want0 st + (m.length - BGP_MH_HEAD_L) := by
        omega
      rw [RA_header_more st c (m.length - BGP_MH_HEAD_L) hrh hle hchk hbody2]
      unfold midState
      rw [if_neg (by omega)]
      rw [hfA, herr, hw,
        take_k_add_full m k c t x hstream (by omega)]
      have e1 : BGP_MH_HEAD_L - k + (m.length - BGP_MH_HEAD_L) - c.length =
          m.length - (k + c.length) := by omega
      rw [e1]
  · have hsplit : c.length < want0 st := by omega
    rw [RA_short st c hsplit]
    unfold midState
    rw [if_neg (by omega)]
    rw [hw, hrh, hfA, herr,
      take_k_add_full m k c t x hstream (by omega), Nat.sub_sub]

theorem RA_mid_done (m : List Nat) (k : Nat) (st : ReaderState)
    (c t x : List Nat) (hwm : WFmsg m) (hent : EntryW m k st)
    (hstream : c ++ t = m.drop k ++ x) (hk : k < m.length)
    (hge : m.length ≤ k + c.length) :
    bgp_connection_read_action st c =
      (⟨0, false, m, false⟩, c.drop (m.length - k), some m) := by
  obtain ⟨hfA, herr, hfW⟩ := hent
  have h19m : BGP_MH_HEAD_L ≤ m.length := hwm.1
  have hfull : m.take k ++ c.take (m.length - k) = m :=
    take_k_full_msg m k c t x hstream (by omega) (by omega)
  rcases hfW with ⟨hkB, hw, hrh⟩ | ⟨hkB, hw, hrh⟩
  · have hle : want0 st ≤ c.length := by omega
    have hib : ibuf0 st ++ c.take (want0 st) = m.take BGP_MH_HEAD_L := by
      rw [hfA, hw,
        take_k_add m k (BGP_MH_HEAD_L - k) c t x hstream (by omega)
          (by omega)]
      have e : k + (BGP_MH_HEAD_L - k) = BGP_MH_HEAD_L := by omega
      rw [e]
    have hchk : bgp_msg_check_header (ibuf0 st ++ c.take (want0 st)) =
        some (m.length - BGP_MH_HEAD_L) := by
      rw [hib]
      exact check_header_wf m hwm
    have h2 : want0 st + (m.length - BGP_MH_HEAD_L) ≤ c.length := by omega
    rw [RA_header_done st c (m.length - BGP_MH_HEAD_L) hrh hle hchk h2]
    have e1 : want0 st + (m.length - BGP_MH_HEAD_L) = m.length - k := by
      omega
    rw [e1, hfA, herr, hfull]
  · have hle : want0 st ≤ c.length := by omega
    rw [RA_body_done st c hrh hle]
    rw [hw, hfA, herr, hfull]

theorem StateOK_zero (ms : List (List Nat)) (st : ReaderState)
    (h1 : st.read_pending = 0) (h2 : st.fsm_err = false) :
    StateOK ms 0 st := ⟨h1, h2⟩

theorem StateOK_pos (m : List Nat) (tail : List (List Nat)) (j : Nat)
    (st : ReaderState) (h1 : 1 ≤ j) (he : st = midState m j)
    (hl : j < m.length) : StateOK (m :: tail) j st := by
  cases j with
  | zero => omega
  | succ j => exact ⟨he, hl⟩

theorem StateOK_entry (m : List Nat) (tail : List (List Nat)) (k : Nat)
    (st : ReaderState) (hwm : WFmsg m)
    (h : StateOK (m :: tail) k st) : EntryW m k st ∧ k < m.length := by
  have h19m : BGP_MH_HEAD_L ≤ m.length := hwm.1
  have hB : BGP_MH_HEAD_L = 19 := rfl
  cases k with
  | zero =>
    obtain ⟨h1, h2⟩ := h
    obtain ⟨e1, e2, e3⟩ := boundary_fields st h1
    exact ⟨⟨by rw [e3]; simp, h2,
      Or.inl ⟨by omega, by rw [e1]; omega, e2⟩⟩, by omega⟩
  | succ k =>
    obtain ⟨he, hl⟩ := h
    subst he
    by_cases hk : k + 1 < BGP_MH_HEAD_L
    · obtain ⟨e1, e2, e3, e4⟩ := midState_lt_fields m (k + 1) hk
      exact ⟨⟨e3, e4, Or.inl ⟨hk, e1, e2⟩⟩, hl⟩
    · have hk' : BGP_MH_HEAD_L ≤ k + 1 := by omega
      obtain ⟨e1, e2, e3, e4⟩ := midState_ge_fields m (k + 1) hk' hl
      exact ⟨⟨e3, e4, Or.inr ⟨hk', e1, e2⟩⟩, hl⟩

theorem run2_lt (m : List Nat) (tail : List (List Nat)) (k n : Nat)
    (h : k + n < m.length) :
    run2 (m :: tail) k n = ⟨[], m :: tail, k + n⟩ := by
  simp only [run2]
  rw [if_pos h]

theorem run2_ge (m : List Nat) (tail : List (List Nat)) (k n : Nat)
    (h : m.length ≤ k + n) :
    run2 (m :: tail) k n =
      ⟨m :: (run2 tail 0 (k + n - m.length)).outs,
       (run2 tail 0 (k + n - m.length)).rest,
       (run2 tail 0 (k + n - m.length)).off⟩ := by
  simp only [run2]
  rw [if_neg (by omega)]

theorem run2_zero (tail : List (List Nat)) (h : ∀ x ∈ tail, WFmsg x) :
    run2 tail 0 0 = ⟨[], tail, 0⟩ := by
  cases tail with
  | nil => rfl
  | cons m2 t2 =>
    have h19 : BGP_MH_HEAD_L ≤ m2.length := (h m2 (by simp)).1
    have hB : BGP_MH_HEAD_L = 19 := rfl
    simp only [run2]
    rw [if_pos (by omega)]

theorem feedW : ∀ (n : Nat) (c : List Nat), c.length ≤ n → c ≠ [] →
    ∀ (ms : List (List Nat)) (k : Nat) (st : ReaderState),
    (∀ x ∈ ms, WFmsg x) → StateOK ms k st →
    (∃ t, c ++ t = streamFrom ms k) →
    ∃ st2, feed st c = (st2, [], (run2 ms k c.length).outs) ∧
      StateOK (run2 ms k c.length).rest (run2 ms k c.length).off st2 := by
  intro n
  induction n with
  | zero =>
    intro c hc hne
    cases c with
    | nil => exact absurd rfl hne
    | cons a as => simp at hc
  | succ n ih =>
    intro c hc hne ms k st hwf hok hs
    obtain ⟨t, ht⟩ := hs
    have hc1 : 1 ≤ c.length := by
      cases c with
      | nil => exact absurd rfl hne
      | cons a as => simp
    cases ms with
    | nil =>
      exfalso
      have h0 : streamFrom ([] : List (List Nat)) k = [] := by
        simp [streamFrom]
      rw [h0] at ht
      cases c with
      | nil => exact absurd rfl hne
      | cons a as => simp at ht
    | cons m tail =>
      have hwm : WFmsg m := hwf m (by simp)
      obtain ⟨hent, hkm⟩ := StateOK_entry m tail k st hwm hok
      have hstream : c ++ t = m.drop k ++ tail.flatten := by
        have e : streamFrom (m :: tail) k = m.drop k ++ tail.flatten := by
          simp only [streamFrom, List.flatten_cons]
          exact app_drop_le m tail.flatten k (by omega)
        rw [e] at ht
        exact ht
      by_cases hsplit : k + c.length < m.length
      · have hra := RA_mid_none m k st c t tail.flatten hwm hent hstream
          hsplit
        have hfeed := feed_none hra
        rw [run2_lt m tail k c.length hsplit]
        refine ⟨midState m (k + c.length), ?_, ?_⟩
        · rw [hfeed]
        · exact StateOK_pos m tail (k + c.length) _ (by omega) rfl hsplit
      · push_neg at hsplit
        have hra := RA_mid_done m k st c t tail.flatten hwm hent hstream hkm
          hsplit
        have hrest : c.drop (m.length - k) ++ t = tail.flatten :=
          seg_drop_rest m k c t tail.flatten hstream (by omega)
        rw [run2_ge m tail k c.length hsplit]
        have hlen2 : (c.drop (m.length - k)).length =
            k + c.length - m.length := by
          rw [List.length_drop]
          omega
        by_cases hb : c.drop (m.length - k) = []
        · rw [hb] at hra
          have hfeed := feed_some_nil hra
          have hzero : k + c.length - m.length = 0 := by
            have h0 := congrArg List.length hb
            rw [hlen2] at h0
            simpa using h0
          rw [hzero, run2_zero tail (fun x hx => hwf x (by simp [hx]))]
          exact ⟨⟨0, false, m, false⟩, by rw [hfeed],
            StateOK_zero tail _ rfl rfl⟩
        · have hfeed := feed_some_cons hra hb
          have hlt2 : (c.drop (m.length - k)).length ≤ n := by
            rw [List.length_drop]
            omega
          have hrec := ih (c.drop (m.length - k)) hlt2 hb tail 0
            ⟨0, false, m, false⟩ (fun x hx => hwf x (by simp [hx]))
            (StateOK_zero tail _ rfl rfl)
            ⟨t, by rw [streamFrom, List.drop_zero]; exact hrest⟩
          obtain ⟨st2, hfeed2, hok2⟩ := hrec
          rw [hlen2] at hfeed2 hok2
          refine ⟨st2, ?_, hok2⟩
          rw [hfeed, hfeed2]

theorem run2_add : ∀ (ms : List (List Nat)) (k n1 : Nat) (n2 : Nat),
    run2 ms k (n1 + n2) =
      ⟨(run2 ms k n1).outs ++
         (run2 (run2 ms k n1).rest (run2 ms k n1).off n2).outs,
       (run2 (run2 ms k n1).rest (run2 ms k n1).off n2).rest,
       (run2 (run2 ms k n1).rest (run2 ms k n1).off n2).off⟩ := by
  intro ms
  induction ms with
  | nil => intro k n1 n2; simp [run2]
  | cons m tail ih =>
    intro k n1 n2
    by_cases h1 : k + (n1 + n2) < m.length
    · have h2 : k + n1 < m.length := by omega
      rw [run2_lt m tail k n1 h2]
      dsimp only
      rw [run2_lt m tail (k + n1) n2 (by omega),
        run2_lt m tail k (n1 + n2) h1]
      simp [Nat.add_assoc]
    · by_cases h2 : k + n1 < m.length
      · rw [run2_lt m tail k n1 h2]
        dsimp only
        rw [run2_ge m tail (k + n1) n2 (by omega),
          run2_ge m tail k (n1 + n2) (by omega)]
        have e : k + (n1 + n2) - m.length = k + n1 + n2 - m.length := by
          omega
        rw [e]
        simp
      · push_neg at h2
        rw [run2_ge m tail k n1 h2, run2_ge m tail k (n1 + n2) (by omega)]
        dsimp only
        have e : k + (n1 + n2) - m.length = k + n1 - m.length + n2 := by
          omega
        rw [e, ih 0 (k + n1 - m.length) n2]
        simp

theorem streamFrom_run2 : ∀ (ms : List (List Nat)) (k n : Nat),
    streamFrom (run2 ms k n).rest (run2 ms k n).off =
      (streamFrom ms k).drop n := by
  intro ms
  induction ms with
  | nil => intro k n; simp [run2, streamFrom]
  | cons m tail ih =>
    intro k n
    by_cases h1 : k + n < m.length
    · rw [run2_lt m tail k n h1]
      dsimp only
      simp only [streamFrom, List.drop_drop]
    · push_neg at h1
      rw [run2_ge m tail k n h1]
      dsimp only
      rw [ih 0 (k + n - m.length)]
      have eL : streamFrom tail 0 = tail.flatten := by
        rw [streamFrom, List.drop_zero]
      have eR : (streamFrom (m :: tail) k).drop n =
          ((m :: tail).flatten).drop (k + n) := by
        rw [streamFrom, List.drop_drop, Nat.add_comm]
      rw [eL, eR, List.flatten_cons, List.drop_append_eq_append_drop,
        List.drop_eq_nil_of_le (show m.length ≤ k + n from h1)]
      simp

theorem run2_total : ∀ (ms : List (List Nat)), (∀ x ∈ ms, WFmsg x) →
    run2 ms 0 ms.flatten.length = ⟨ms, [], 0⟩ := by
  intro ms
  induction ms with
  | nil => intro _; rfl
  | cons m tail ih =>
    intro h
    have h19 : BGP_MH_HEAD_L ≤ m.length := (h m (by simp)).1
    have hB : BGP_MH_HEAD_L = 19 := rfl
    have e : ((m :: tail).flatten).length =
        m.length + tail.flatten.length := by
      simp [List.flatten_cons]
    rw [e, run2_ge m tail 0 _ (by omega)]
    have e2 : 0 + (m.length + tail.flatten.length) - m.length =
        tail.flatten.length := by omega
    rw [e2, ih (fun x hx => h x (by simp [hx]))]

theorem run2_rest_mem : ∀ (ms : List (List Nat)) (k n : Nat) (x : List Nat),
    x ∈ (run2 ms k n).rest → x ∈ ms := by
  intro ms
  induction ms with
  | nil =>
    intro k n x hx
    simp [run2] at hx
  | cons m tail ih =>
    intro k n x hx
    by_cases h1 : k + n < m.length
    · rw [run2_lt m tail k n h1] at hx
      exact hx
    · rw [run2_ge m tail k n (by omega)] at hx
      exact List.mem_cons_of_mem m (ih 0 (k + n - m.length) x hx)

theorem auxChunks : ∀ (chunks ms : List (List Nat)) (k : Nat)
    (st : ReaderState),
    (∀ x ∈ ms, WFmsg x) → (∀ c ∈ chunks, c ≠ []) → StateOK ms k st →
    chunks.flatten = streamFrom ms k →
    ∃ st2, feedAll st [] chunks =
        (st2, [], (run2 ms k chunks.flatten.length).outs) ∧
      StateOK (run2 ms k chunks.flatten.length).rest
        (run2 ms k chunks.flatten.length).off st2 := by
  intro chunks
  induction chunks with
  | nil =>
    intro ms k st hwf hch hok hj
    cases ms with
    | nil =>
      cases k with
      | zero => exact ⟨st, by simp [feedAll, run2], hok⟩
      | succ k => exact hok.elim
    | cons m tail =>
      exfalso
      have hwm := hwf m (by simp)
      have h19m : BGP_MH_HEAD_L ≤ m.length := hwm.1
      have hB : BGP_MH_HEAD_L = 19 := rfl
      obtain ⟨-, hkm⟩ := StateOK_entry m tail k st hwm hok
      have h2 : streamFrom (m :: tail) k = [] := by
        rw [← hj]
        rfl
      have h2' : ((m :: tail).flatten).length ≤ k := by
        rw [← List.drop_eq_nil_iff]
        exact h2
      have h3 : m.length ≤ ((m :: tail).flatten).length := by
        simp only [List.flatten_cons, List.length_append]
        omega
      omega
  | cons c rest ih =>
    intro ms k st hwf hch hok hj
    have hcne : c ≠ [] := hch c (by simp)
    have hstream : ∃ t, c ++ t = streamFrom ms k :=
      ⟨rest.flatten, by rw [← hj]; simp⟩
    obtain ⟨st1, hfeed1, hok1⟩ :=
      feedW c.length c (le_refl _) hcne ms k st hwf hok hstream
    have hwf2 : ∀ x ∈ (run2 ms k c.length).rest, WFmsg x :=
      fun x hx => hwf x (run2_rest_mem ms k c.length x hx)
    have hch2 : ∀ d ∈ rest, d ≠ [] := fun d hd => hch d (by simp [hd])
    have hj2 : rest.flatten =
        streamFrom (run2 ms k c.length).rest (run2 ms k c.length).off := by
      rw [streamFrom_run2, ← hj, List.flatten_cons, List.drop_left]
    obtain ⟨st2, hfeed2, hok2⟩ :=
      ih (run2 ms k c.length).rest (run2 ms k c.length).off st1 hwf2 hch2
        hok1 hj2
    have hadd := run2_add ms k c.length rest.flatten.length
    have e : ((c :: rest).flatten).length =
        c.length + rest.flatten.length := by
      simp
    refine ⟨st2, ?_, ?_⟩
    · simp only [feedAll, List.nil_append, hfeed1]
      rw [hfeed2]
      rw [e, hadd]
    · rw [e, hadd]
      exact hok2

/-- Claim C8: delivering any byte-wise chunking of a well-formed stream
of BGP messages to `bgp_connection_read_action` dispatches exactly the
original sequence of messages, each once and in order, and leaves
`read_pending = 0` with no framing error raised. -/
theorem read_framer_reassembly (msgs chunks : List (List Nat))
    (hwf : ∀ m ∈ msgs, WFmsg m) (hch : ∀ c ∈ chunks, c ≠ [])
    (hj : chunks.flatten = msgs.flatten) :
    ∃ st2, feedAll initReader [] chunks = (st2, [], msgs) ∧
      st2.read_pending = 0 ∧ st2.fsm_err = false := by
  have h0 : StateOK msgs 0 initReader := StateOK_zero _ _ rfl rfl
  have hs : chunks.flatten = streamFrom msgs 0 := by
    rw [hj, streamFrom, List.drop_zero]
  obtain ⟨st2, hfeed, hok⟩ := auxChunks chunks msgs 0 initReader hwf hch h0 hs
  rw [hj] at hfeed hok
  rw [run2_total msgs hwf] at hfeed hok
  exact ⟨st2, hfeed, hok.1, hok.2⟩

/-- Witness for C8, scenario S3: the 19-byte KEEPALIVE fed in chunks of
sizes 10, 8 and 1 yields exactly one dispatch of that message with
`read_pending = 0` afterwards. -/
theorem read_framer_reassembly_witness :
    ∃ st2, feedAll initReader [] chunksC8 = (st2, [], [kmsgC8]) ∧
      st2.read_pending = 0 ∧ st2.fsm_err = false :=
  read_framer_reassembly [kmsgC8] chunksC8 (by decide) (by decide)
    (by decide)
